import Mathlib

/-
Verification of the ray tracing core of the repository
(src/rt.original/rt/rt/rt.cpp and src/rt.reworked/rt.cpp).

Modelling choices:
* Machine floats are idealised as exact rationals.  The single floating
  point library call, std::sqrt, is threaded through the development as an
  explicit parameter sq : Q -> Q together with the predicate SqOk, which
  states that sq behaves as a square root on the non-negative input it is
  applied to.  Every definition stays computable, so concrete runs can be
  checked with decide.
* Out-parameters written through references become returned values:
  solve_quadratic returns an Option of the root pair, intersect_sphere
  returns the hit flag together with the (possibly updated) ray.
* The pseudo-random stream produced by std::rand, external to the
  repository, is modelled as an explicit stream u : Nat -> Q of draws of
  RAND_FLOAT; the spec describes each draw as a uniform value in [0, 1).
-/

namespace RT

/-- A ray: origin, direction and current nearest intersection distance,
mirroring struct ray of rt.cpp. -/
structure Ray where
  ox : ℚ
  oy : ℚ
  oz : ℚ
  dx : ℚ
  dy : ℚ
  dz : ℚ
  maxt : ℚ
deriving DecidableEq, Repr

/-- A sphere: center, radius and color, mirroring struct sphere of rt.cpp. -/
structure Sphere where
  cx : ℚ
  cy : ℚ
  cz : ℚ
  radius : ℚ
  r : ℚ
  g : ℚ
  b : ℚ
deriving DecidableEq, Repr

/-- sq models std::sqrt at a given input: on a non-negative argument it
returns the non-negative square root. -/
abbrev SqOk (sq : ℚ → ℚ) (x : ℚ) : Prop :=
  0 ≤ x → sq x * sq x = x ∧ 0 ≤ sq x

def LEFT : ℚ := -10
def BOTTOM : ℚ := -10
def WIDTH : ℚ := 20
def HEIGHT : ℚ := 20
def NEAR : ℚ := -10
def FAR : ℚ := 10

def kImageWidth : ℕ := 2048
def kImageHeight : ℕ := 2048
def kNumSpheres : ℕ := 512

/-- solve_quadratic of rt.cpp: returns none when the discriminant is
negative, otherwise the pair (x1, x2) computed with den = 1/(2a). -/
def solve_quadratic (sq : ℚ → ℚ) (a b c : ℚ) : Option (ℚ × ℚ) :=
  let d := b * b - 4 * a * c
  if d < 0 then
    none
  else
    let den := 1 / (2 * a)
    some ((-b - sq d) * den, (-b + sq d) * den)

/-- The coefficient a of the quadratic formed in intersect_sphere:
squared length of the ray direction. -/
def aCoef (r : Ray) : ℚ :=
  r.dx * r.dx + r.dy * r.dy + r.dz * r.dz

/-- The coefficient b of the quadratic formed in intersect_sphere, from the
origin translated into the sphere local frame. -/
def bCoef (s : Sphere) (r : Ray) : ℚ :=
  2 * ((r.ox - s.cx) * r.dx + (r.oy - s.cy) * r.dy + (r.oz - s.cz) * r.dz)

/-- The coefficient c of the quadratic formed in intersect_sphere:
squared distance of the translated origin minus squared radius. -/
def cCoef (s : Sphere) (r : Ray) : ℚ :=
  (r.ox - s.cx) * (r.ox - s.cx) + (r.oy - s.cy) * (r.oy - s.cy) +
    (r.oz - s.cz) * (r.oz - s.cz) - s.radius * s.radius

/-- Discriminant of the quadratic formed in intersect_sphere. -/
def disc (s : Sphere) (r : Ray) : ℚ :=
  bCoef s r * bCoef s r - 4 * aCoef r * cCoef s r

/-- intersect_sphere of rt.cpp.  Returns the hit flag and the ray after the
call: on a miss the ray is returned unchanged, on a hit maxt is replaced by
t0 when t0 is positive and by t1 otherwise. -/
def intersect_sphere (sq : ℚ → ℚ) (s : Sphere) (r : Ray) : Bool × Ray :=
  match solve_quadratic sq (aCoef r) (bCoef s r) (cCoef s r) with
  | none => (false, r)
  | some (t0, t1) =>
      if r.maxt < t0 ∨ t1 < 0 then
        (false, r)
      else
        (true, { r with maxt := if 0 < t0 then t0 else t1 })

/-- The inner sphere loop of trace in rt.cpp: fold over the remaining
spheres, carrying the next sphere index k and the state (idx, ray). -/
def scanFrom (sq : ℚ → ℚ) : List Sphere → ℕ → Int × Ray → Int × Ray
  | [], _, st => st
  | s :: rest, k, st =>
      let hr := intersect_sphere sq s st.2
      scanFrom sq rest (k + 1) (if hr.1 then ((k : Int), hr.2) else (st.1, hr.2))

/-- The whole per-pixel sphere scan of trace in rt.cpp: idx starts at -1. -/
def scan (sq : ℚ → ℚ) (spheres : List Sphere) (r : Ray) : Int × Ray :=
  scanFrom sq spheres 0 (-1, r)

/-- The sequence of accepted hits of the scan: for every call of
intersect_sphere that returns true, the sphere index together with the
value stored into maxt by that call. -/
def scanEv (sq : ℚ → ℚ) : List Sphere → ℕ → Ray → List (ℕ × ℚ)
  | [], _, _ => []
  | s :: rest, k, r =>
      let hr := intersect_sphere sq s r
      if hr.1 then (k, hr.2.maxt) :: scanEv sq rest (k + 1) hr.2
      else scanEv sq rest (k + 1) hr.2

/-- The ray built by trace in rt.cpp for pixel (i, j) of a W by H image:
orthographic camera, direction (0, 0, 1), maxt = FAR - NEAR. -/
def mkRay (W H : ℕ) (i j : ℕ) : Ray :=
  { ox := LEFT + (WIDTH / (W : ℚ)) * ((i : ℚ) + 1/2)
    oy := BOTTOM + (HEIGHT / (H : ℚ)) * ((j : ℚ) + 1/2)
    oz := NEAR
    dx := 0
    dy := 0
    dz := 1
    maxt := FAR - NEAR }

/-- Fallback sphere used to model the (never taken in range) out-of-bounds
branch of the array access spheres[idx]. -/
def sphere0 : Sphere := ⟨0, 0, 0, 0, 0, 0, 0⟩

/-- The color trace in rt.cpp writes for pixel (i, j): the color of the
sphere recorded by the scan when the recorded index is strictly positive,
the background color (0.1, 0.1, 0.1) otherwise. -/
def pixel_color (sq : ℚ → ℚ) (spheres : List Sphere) (W H i j : ℕ) : ℚ × ℚ × ℚ :=
  let res := scan sq spheres (mkRay W H i j)
  if 0 < res.1 then
    let s := spheres.getD res.1.toNat sphere0
    (s.r, s.g, s.b)
  else
    (1/10, 1/10, 1/10)

/-- The three buffer writes trace in rt.cpp performs for pixel (i, j):
cells (j*W + i)*3, +1, +2 of the row-major image receive the components of
the resolved color. -/
def writePixel (sq : ℚ → ℚ) (spheres : List Sphere) (W H : ℕ)
    (img : ℕ → ℚ) (i j : ℕ) : ℕ → ℚ :=
  let c := pixel_color sq spheres W H i j
  let o := (j * W + i) * 3
  Function.update (Function.update (Function.update img o c.1) (o + 1) c.2.1)
    (o + 2) c.2.2

/-- The nested pixel loops of trace in rt.cpp over a W by H image:
outer loop on the column i, inner loop on the row j. -/
def traceAux (sq : ℚ → ℚ) (spheres : List Sphere) (W H : ℕ)
    (img : ℕ → ℚ) : ℕ → ℚ :=
  (List.range W).foldl
    (fun im i => (List.range H).foldl
      (fun im2 j => writePixel sq spheres W H im2 i j) im)
    img

/-- trace of rt.cpp at the images dimensions of the program. -/
def trace (sq : ℚ → ℚ) (spheres : List Sphere) (img : ℕ → ℚ) : ℕ → ℚ :=
  traceAux sq spheres kImageWidth kImageHeight img

/-- generate_spheres of rt.original, with the stream of RAND_FLOAT draws
u explicit: sphere i consumes draws 7i .. 7i+6 in the field order
cx, cy, cz, radius, r, g, b. -/
def genAux (u : ℕ → ℚ) : ℕ → ℕ → List Sphere
  | 0, _ => []
  | n + 1, p =>
      { cx := u p * 20 - 10
        cy := u (p + 1) * 20 - 10
        cz := u (p + 2) * 20 - 5
        radius := (u (p + 3) + 1/10) * (3/2)
        r := u (p + 4)
        g := u (p + 5)
        b := u (p + 6) } :: genAux u n (p + 7)

/-- generate_spheres of rt.original for n spheres from the start of the
draw stream. -/
def generate_spheres (u : ℕ → ℚ) (n : ℕ) : List Sphere :=
  genAux u n 0

/-- The default constructor sphere::sphere of rt.reworked: consumes seven
draws starting at stream position p, in the order cx, cy, cz, radius,
r, g, b, and returns the sphere together with the next stream position. -/
def sphere_ctor (u : ℕ → ℚ) (p : ℕ) : Sphere × ℕ :=
  ({ cx := u p * 20 - 10
     cy := u (p + 1) * 20 - 10
     cz := u (p + 2) * 20 - 5
     radius := (u (p + 3) + 1/10) * (3/2)
     r := u (p + 4)
     g := u (p + 5)
     b := u (p + 6) }, p + 7)

/-- The emplace_back loop of generate_spheres of rt.reworked: invokes the
default constructor once per reserved slot, in index order. -/
def genrwAux (u : ℕ → ℚ) : ℕ → ℕ → List Sphere
  | 0, _ => []
  | n + 1, p =>
      let sp := sphere_ctor u p
      sp.1 :: genrwAux u n sp.2

/-- generate_spheres of rt.reworked for a vector with n reserved slots,
from the start of the draw stream. -/
def generate_spheres_rw (u : ℕ → ℚ) (n : ℕ) : List Sphere :=
  genrwAux u n 0

/-- Component c of a color triple, matching the order of the three buffer
writes of trace. -/
def rgbc (p : ℚ × ℚ × ℚ) (c : ℕ) : ℚ :=
  if c = 0 then p.1 else if c = 1 then p.2.1 else p.2.2

/-- Concrete square root table used on concrete runs: correct on the two
discriminants 4 and 3600 that those runs produce. -/
def sqCE : ℚ → ℚ := fun d => if d = 4 then 2 else if d = 3600 then 60 else 0

/-- A square root stub for runs whose discriminants are all negative or
irrelevant. -/
def sq0 : ℚ → ℚ := fun _ => 0

/-- The x (and y) coordinate of the center of pixel (0, 0) of the 2048 by
2048 image: -10 + (20/2048) * 0.5. -/
def cx0 : ℚ := -10235/1024

/-- A small sphere one unit in radius, centered on the axis of the ray of
pixel (0, 0), five units in front of the image plane. -/
def sphA : Sphere := ⟨cx0, cx0, -5, 1, 1/2, 1/2, 1/2⟩

/-- A large sphere containing the origin of the ray of pixel (0, 0); its
exit point lies 30 units along the ray. -/
def sphB : Sphere := ⟨cx0, cx0, -10, 30, 1, 0, 0⟩

/-- A sphere far away from every pixel ray: its discriminant is negative. -/
def sphFar : Sphere := ⟨100, 0, 0, 1, 0, 0, 0⟩

/-- The all-zero initial image buffer. -/
def img0 : ℕ → ℚ := fun _ => 0

/-- The constant draw stream one half. -/
def uHalf : ℕ → ℚ := fun _ => 1/2

/-! Helper lemmas about the intersection primitive. -/

lemma intersect_sphere_snd_shape (sq : ℚ → ℚ) (s : Sphere) (r : Ray) :
    (intersect_sphere sq s r).2 =
      { r with maxt := (intersect_sphere sq s r).2.maxt } := by
  unfold intersect_sphere
  cases hq : solve_quadratic sq (aCoef r) (bCoef s r) (cCoef s r) with
  | none => rfl
  | some p =>
    obtain ⟨t0, t1⟩ := p
    by_cases hrej : r.maxt < t0 ∨ t1 < 0
    · dsimp only
      rw [if_pos hrej]
    · dsimp only
      rw [if_neg hrej]

lemma intersect_sphere_false_eq (sq : ℚ → ℚ) (s : Sphere) (r : Ray)
    (h : (intersect_sphere sq s r).1 = false) :
    (intersect_sphere sq s r).2 = r := by
  unfold intersect_sphere at h ⊢
  cases hq : solve_quadratic sq (aCoef r) (bCoef s r) (cCoef s r) with
  | none => rfl
  | some p =>
    obtain ⟨t0, t1⟩ := p
    rw [hq] at h
    by_cases hrej : r.maxt < t0 ∨ t1 < 0
    · dsimp only
      rw [if_pos hrej]
    · simp only [if_neg hrej] at h
      simp at h

lemma aCoef_maxt (r : Ray) (t : ℚ) : aCoef { r with maxt := t } = aCoef r := rfl

lemma cCoef_maxt (s : Sphere) (r : Ray) (t : ℚ) :
    cCoef s { r with maxt := t } = cCoef s r := rfl

lemma disc_maxt (s : Sphere) (r : Ray) (t : ℚ) :
    disc s { r with maxt := t } = disc s r := rfl

lemma solve_quadratic_eq_some (sq : ℚ → ℚ) (a b c t0 t1 : ℚ)
    (h : solve_quadratic sq a b c = some (t0, t1)) :
    0 ≤ b * b - 4 * a * c ∧
      t0 = (-b - sq (b * b - 4 * a * c)) * (1 / (2 * a)) ∧
      t1 = (-b + sq (b * b - 4 * a * c)) * (1 / (2 * a)) := by
  unfold solve_quadratic at h
  by_cases hd : b * b - 4 * a * c < 0
  · simp [hd] at h
  · simp only [if_neg hd, Option.some.injEq, Prod.mk.injEq] at h
    exact ⟨not_lt.mp hd, h.1.symm, h.2.symm⟩

/-- On an accepted hit with positive a and positive c (ray origin strictly
outside the sphere), the chosen distance is the positive entry root t0,
which is bounded by the previous maxt. -/
lemma maxt_mono (sq : ℚ → ℚ) (s : Sphere) (r : Ray)
    (hsq : SqOk sq (disc s r)) (ha : 0 < aCoef r) (hc : 0 < cCoef s r)
    (hhit : (intersect_sphere sq s r).1 = true) :
    0 < (intersect_sphere sq s r).2.maxt ∧
      (intersect_sphere sq s r).2.maxt ≤ r.maxt := by
  unfold intersect_sphere at hhit ⊢
  cases hq : solve_quadratic sq (aCoef r) (bCoef s r) (cCoef s r) with
  | none => rw [hq] at hhit; simp at hhit
  | some p =>
    obtain ⟨t0, t1⟩ := p
    rw [hq] at hhit
    obtain ⟨hd, ht0, ht1⟩ := solve_quadratic_eq_some sq _ _ _ _ _ hq
    by_cases hrej : r.maxt < t0 ∨ t1 < 0
    · simp only [if_pos hrej] at hhit; simp at hhit
    · push_neg at hrej
      obtain ⟨hle, ht1nn⟩ := hrej
      obtain ⟨hs2, hsnn⟩ := hsq (by simpa [disc] using hd)
      simp only [disc] at hs2 hsnn
      have hane : aCoef r ≠ 0 := ne_of_gt ha
      have hprod : t0 * t1 = cCoef s r / aCoef r := by
        rw [ht0, ht1]
        field_simp
        linear_combination (-aCoef r) * hs2
      have hppos : 0 < t0 * t1 := by
        rw [hprod]; exact div_pos hc ha
      have ht1pos : 0 < t1 := lt_of_le_of_ne ht1nn (by rintro rfl; simp at hppos)
      have ht0pos : 0 < t0 := by nlinarith
      dsimp only
      rw [if_neg (not_or.mpr ⟨not_lt.mpr hle, not_lt.mpr ht1nn⟩)]
      simp only [if_pos ht0pos]
      exact ⟨ht0pos, hle⟩

/-- Master invariant of the sphere scan: when the ray origin is strictly
outside every sphere of the scene and the direction is non-degenerate, the
final maxt is bounded by the initial one and by the distance stored at
every accepted hit, and the final state is given by the last accepted hit
(or is the initial state when no sphere was accepted). -/
lemma scanFrom_events (sq : ℚ → ℚ) (L : List Sphere) :
    ∀ (k : ℕ) (idx : Int) (r : Ray), 0 < aCoef r →
    (∀ s ∈ L, SqOk sq (disc s r) ∧ 0 < cCoef s r) →
    (scanFrom sq L k (idx, r)).2.maxt ≤ r.maxt ∧
    (∀ p ∈ scanEv sq L k r, (scanFrom sq L k (idx, r)).2.maxt ≤ p.2) ∧
    (scanEv sq L k r = [] → scanFrom sq L k (idx, r) = (idx, r)) ∧
    (∀ p, (scanEv sq L k r).getLast? = some p →
      (scanFrom sq L k (idx, r)).1 = (p.1 : Int) ∧
      (scanFrom sq L k (idx, r)).2.maxt = p.2) := by
  induction L with
  | nil =>
    intro k idx r ha h
    refine ⟨le_refl _, by simp [scanEv], fun _ => rfl, by simp [scanEv]⟩
  | cons s rest ih =>
    intro k idx r ha h
    have hs := h s (List.mem_cons_self s rest)
    have hrest : ∀ s2 ∈ rest, SqOk sq (disc s2 r) ∧ 0 < cCoef s2 r :=
      fun s2 hs2 => h s2 (List.mem_cons_of_mem s hs2)
    cases hb : (intersect_sphere sq s r).1 with
    | false =>
      have heq : (intersect_sphere sq s r).2 = r :=
        intersect_sphere_false_eq sq s r hb
      have hsf : scanFrom sq (s :: rest) k (idx, r) = scanFrom sq rest (k + 1) (idx, r) := by
        simp [scanFrom, hb, heq]
      have hse : scanEv sq (s :: rest) k r = scanEv sq rest (k + 1) r := by
        simp [scanEv, hb, heq]
      rw [hsf, hse]
      exact ih (k + 1) idx r ha hrest
    | true =>
      have hm := maxt_mono sq s r hs.1 ha hs.2 hb
      have hshape := intersect_sphere_snd_shape sq s r
      have ha2 : 0 < aCoef (intersect_sphere sq s r).2 := by
        rw [hshape, aCoef_maxt]; exact ha
      have hrest2 : ∀ s2 ∈ rest,
          SqOk sq (disc s2 (intersect_sphere sq s r).2) ∧
            0 < cCoef s2 (intersect_sphere sq s r).2 := by
        intro s2 hs2
        rw [hshape, disc_maxt, cCoef_maxt]
        exact hrest s2 hs2
      have hsf : scanFrom sq (s :: rest) k (idx, r) =
          scanFrom sq rest (k + 1) ((k : Int), (intersect_sphere sq s r).2) := by
        simp [scanFrom, hb]
      have hse : scanEv sq (s :: rest) k r =
          (k, (intersect_sphere sq s r).2.maxt) ::
            scanEv sq rest (k + 1) (intersect_sphere sq s r).2 := by
        simp [scanEv, hb]
      obtain ⟨ih1, ih2, ih3, ih4⟩ :=
        ih (k + 1) (k : Int) (intersect_sphere sq s r).2 ha2 hrest2
      rw [hsf, hse]
      refine ⟨ih1.trans hm.2, ?_, ?_, ?_⟩
      · intro p hp
        rcases List.mem_cons.mp hp with hp1 | hp2
        · rw [hp1]; exact ih1
        · exact ih2 p hp2
      · intro hnil; exact absurd hnil (List.cons_ne_nil _ _)
      · intro p hp
        cases hev : scanEv sq rest (k + 1) (intersect_sphere sq s r).2 with
        | nil =>
          rw [hev] at hp
          simp only [List.getLast?_singleton, Option.some.injEq] at hp
          have hfin := ih3 hev
          rw [hfin, ← hp]
          exact ⟨rfl, rfl⟩
        | cons q qs =>
          rw [hev] at hp
          rw [List.getLast?_cons_cons] at hp
          exact ih4 p (by rw [hev]; exact hp)

/-- The scan touches only the maxt field of the ray: origin and direction
survive unchanged. -/
lemma scanFrom_frame (sq : ℚ → ℚ) (L : List Sphere) :
    ∀ (k : ℕ) (idx : Int) (r : Ray),
    (scanFrom sq L k (idx, r)).2 =
      { r with maxt := (scanFrom sq L k (idx, r)).2.maxt } := by
  induction L with
  | nil => intro k idx r; rfl
  | cons s rest ih =>
    intro k idx r
    have hshape := intersect_sphere_snd_shape sq s r
    cases hb : (intersect_sphere sq s r).1 with
    | false =>
      have hsf : scanFrom sq (s :: rest) k (idx, r) =
          scanFrom sq rest (k + 1) (idx, (intersect_sphere sq s r).2) := by
        simp [scanFrom, hb]
      rw [hsf]
      rw [hshape]
      exact ih (k + 1) idx _
    | true =>
      have hsf : scanFrom sq (s :: rest) k (idx, r) =
          scanFrom sq rest (k + 1) ((k : Int), (intersect_sphere sq s r).2) := by
        simp [scanFrom, hb]
      rw [hsf]
      rw [hshape]
      exact ih (k + 1) _ _

lemma pixel_color_bg (sq : ℚ → ℚ) (spheres : List Sphere) (W H i j : ℕ)
    (h : (scan sq spheres (mkRay W H i j)).1 ≤ 0) :
    pixel_color sq spheres W H i j = (1/10, 1/10, 1/10) := by
  unfold pixel_color
  rw [if_neg (not_lt.mpr h)]

lemma rowcol_inj {W i i2 j j2 : ℕ} (hi : i < W) (hi2 : i2 < W)
    (h : j * W + i = j2 * W + i2) : j = j2 ∧ i = i2 := by
  have hW : 0 < W := lt_of_le_of_lt (Nat.zero_le i) hi
  have hj : j = j2 := by
    have e1 : (j * W + i) / W = j := by
      rw [Nat.mul_comm, Nat.mul_add_div hW, Nat.div_eq_of_lt hi, Nat.add_zero]
    have e2 : (j2 * W + i2) / W = j2 := by
      rw [Nat.mul_comm, Nat.mul_add_div hW, Nat.div_eq_of_lt hi2, Nat.add_zero]
    rw [← e1, ← e2, h]
  subst hj
  exact ⟨rfl, Nat.add_left_cancel h⟩

lemma off_inj {W i i2 j j2 c c2 : ℕ} (hi : i < W) (hi2 : i2 < W)
    (hc : c < 3) (hc2 : c2 < 3)
    (h : (j * W + i) * 3 + c = (j2 * W + i2) * 3 + c2) :
    j = j2 ∧ i = i2 ∧ c = c2 := by
  have key : ∀ x y : ℕ, x * 3 + c = y * 3 + c2 → x = y ∧ c = c2 := by
    intro x y hxy; omega
  obtain ⟨h1, h2⟩ := key _ _ h
  obtain ⟨hj, hii⟩ := rowcol_inj hi hi2 h1
  exact ⟨hj, hii, h2⟩

lemma off_ne {W i i2 j j2 c c2 : ℕ} (hi : i < W) (hi2 : i2 < W)
    (hc : c < 3) (hc2 : c2 < 3) (hne : ¬(i = i2 ∧ j = j2)) :
    (j * W + i) * 3 + c ≠ (j2 * W + i2) * 3 + c2 := by
  intro h
  obtain ⟨hj, hii, _⟩ := off_inj hi hi2 hc hc2 h
  exact hne ⟨hii, hj⟩

lemma writePixel_at {sq : ℚ → ℚ} {spheres : List Sphere} {W H : ℕ}
    (img : ℕ → ℚ) (i j c : ℕ) (hc : c < 3) :
    writePixel sq spheres W H img i j ((j * W + i) * 3 + c) =
      rgbc (pixel_color sq spheres W H i j) c := by
  simp only [writePixel, Function.update_apply]
  set o := (j * W + i) * 3 with ho
  interval_cases c
  · rw [if_neg (by omega), if_neg (by omega), if_pos (by omega)]
    rfl
  · rw [if_neg (by omega), if_pos (by omega)]
    rfl
  · rw [if_pos (by omega)]
    rfl

lemma writePixel_ne {sq : ℚ → ℚ} {spheres : List Sphere} {W H : ℕ}
    (img : ℕ → ℚ) {i j c i2 j2 : ℕ} (hi : i < W) (hi2 : i2 < W) (hc : c < 3)
    (hne : ¬(i = i2 ∧ j = j2)) :
    writePixel sq spheres W H img i2 j2 ((j * W + i) * 3 + c) =
      img ((j * W + i) * 3 + c) := by
  have hz : (0:ℕ) < 3 := by norm_num
  have hX : (j * W + i) * 3 + c ≠ (j2 * W + i2) * 3 := by
    intro h
    exact off_ne hi hi2 hc hz hne (by rw [Nat.add_zero]; exact h)
  simp only [writePixel, Function.update_apply]
  rw [if_neg (off_ne hi hi2 hc (by norm_num) hne),
    if_neg (off_ne hi hi2 hc (by norm_num) hne), if_neg hX]


lemma colFold_ne {sq : ℚ → ℚ} {spheres : List Sphere} {W H : ℕ}
    {i j c i2 : ℕ} (hi : i < W) (hi2 : i2 < W) (hc : c < 3) (hne : i ≠ i2)
    (J : List ℕ) :
    ∀ im : ℕ → ℚ,
    (J.foldl (fun m j2 => writePixel sq spheres W H m i2 j2) im)
        ((j * W + i) * 3 + c) =
      im ((j * W + i) * 3 + c) := by
  induction J with
  | nil => intro im; rfl
  | cons j0 rest ih =>
    intro im
    rw [List.foldl_cons, ih]
    exact writePixel_ne im hi hi2 hc (fun hcon => hne hcon.1)

lemma colFold_val {sq : ℚ → ℚ} {spheres : List Sphere} {W H : ℕ}
    {i j c : ℕ} (hi : i < W) (hc : c < 3) (J : List ℕ) :
    ∀ im : ℕ → ℚ,
    (J.foldl (fun m j2 => writePixel sq spheres W H m i j2) im)
        ((j * W + i) * 3 + c) =
      if j ∈ J then rgbc (pixel_color sq spheres W H i j) c
      else im ((j * W + i) * 3 + c) := by
  induction J with
  | nil => intro im; simp
  | cons j0 rest ih =>
    intro im
    rw [List.foldl_cons, ih]
    by_cases hjr : j ∈ rest
    · rw [if_pos hjr, if_pos (List.mem_cons_of_mem j0 hjr)]
    · rw [if_neg hjr]
      by_cases hj0 : j = j0
      · subst hj0
        rw [writePixel_at im i j c hc, if_pos (List.mem_cons_self j rest)]
      · rw [writePixel_ne im hi hi hc (fun hcon => hj0 hcon.2),
          if_neg (by simp [List.mem_cons, hj0, hjr])]

lemma rowFold_val {sq : ℚ → ℚ} {spheres : List Sphere} {W H : ℕ}
    {i j c : ℕ} (hi : i < W) (hc : c < 3) (I : List ℕ) (hIW : ∀ x ∈ I, x < W) :
    ∀ im : ℕ → ℚ,
    (I.foldl
        (fun m i2 => (List.range H).foldl
          (fun m2 j2 => writePixel sq spheres W H m2 i2 j2) m)
        im) ((j * W + i) * 3 + c) =
      if i ∈ I ∧ j < H then rgbc (pixel_color sq spheres W H i j) c
      else im ((j * W + i) * 3 + c) := by
  induction I with
  | nil => intro im; simp
  | cons i0 rest ih =>
    intro im
    have hi0 : i0 < W := hIW i0 (List.mem_cons_self i0 rest)
    have hrest : ∀ x ∈ rest, x < W := fun x hx => hIW x (List.mem_cons_of_mem i0 hx)
    rw [List.foldl_cons, ih hrest]
    by_cases hir : i ∈ rest ∧ j < H
    · rw [if_pos hir, if_pos ⟨List.mem_cons_of_mem i0 hir.1, hir.2⟩]
    · rw [if_neg hir]
      by_cases hi0i : i = i0
      · subst hi0i
        rw [colFold_val hi hc (List.range H) im]
        by_cases hjH : j < H
        · rw [if_pos (List.mem_range.mpr hjH),
            if_pos ⟨List.mem_cons_self i rest, hjH⟩]
        · rw [if_neg (fun hmem => hjH (List.mem_range.mp hmem)),
            if_neg (fun hcon => hjH hcon.2)]
      · rw [colFold_ne hi hi0 hc hi0i (List.range H) im,
          if_neg (by
            rintro ⟨hmem, hjH⟩
            rcases List.mem_cons.mp hmem with h1 | h2
            · exact hi0i h1
            · exact hir ⟨h2, hjH⟩)]

lemma traceAux_cell {sq : ℚ → ℚ} {spheres : List Sphere} {W H : ℕ}
    {i j c : ℕ} (img : ℕ → ℚ) (hi : i < W) (hj : j < H) (hc : c < 3) :
    traceAux sq spheres W H img ((j * W + i) * 3 + c) =
      rgbc (pixel_color sq spheres W H i j) c := by
  unfold traceAux
  rw [rowFold_val hi hc (List.range W) (fun x hx => List.mem_range.mp hx) img,
    if_pos ⟨List.mem_range.mpr hi, hj⟩]


/-- C4: for every ray r and sphere s, intersect_sphere returns false and
leaves r unchanged when the quadratic built from the translated origin has
negative discriminant (no real roots), or when the computed roots t0, t1
satisfy t0 > r.maxt or t1 < 0; otherwise it returns true and sets r.maxt
to t0 if t0 > 0 and to t1 otherwise. -/
theorem intersect_sphere_spec (sq : ℚ → ℚ) (s : Sphere) (r : Ray) :
    (disc s r < 0 → intersect_sphere sq s r = (false, r)) ∧
    (∀ t0 t1,
      solve_quadratic sq (aCoef r) (bCoef s r) (cCoef s r) = some (t0, t1) →
      ((r.maxt < t0 ∨ t1 < 0) → intersect_sphere sq s r = (false, r)) ∧
      (¬(r.maxt < t0 ∨ t1 < 0) →
        intersect_sphere sq s r =
          (true, { r with maxt := if 0 < t0 then t0 else t1 }))) := by
  constructor
  · intro hd
    have hnone : solve_quadratic sq (aCoef r) (bCoef s r) (cCoef s r) = none := by
      unfold solve_quadratic
      rw [if_pos (by simpa [disc] using hd)]
    unfold intersect_sphere
    rw [hnone]
  · intro t0 t1 hsol
    unfold intersect_sphere
    rw [hsol]
    constructor
    · intro hrej
      dsimp only
      rw [if_pos hrej]
    · intro hrej
      dsimp only
      rw [if_neg hrej]

theorem intersect_sphere_spec_witness :
    intersect_sphere sqCE sphA (mkRay 2048 2048 0 0) =
      (true, { mkRay 2048 2048 0 0 with maxt := if 0 < (4:ℚ) then 4 else 6 }) :=
  ((intersect_sphere_spec sqCE sphA (mkRay 2048 2048 0 0)).2 4 6
    (by norm_num [solve_quadratic, aCoef, bCoef, cCoef, mkRay, sphA, sqCE,
      cx0, LEFT, BOTTOM, WIDTH, HEIGHT, NEAR, FAR])).2
    (by norm_num [mkRay, FAR, NEAR])

/-- C7: with a positive leading coefficient, whenever solve_quadratic
reports roots they are ordered x1 less or equal x2, and whenever the
discriminant is negative it reports no real roots. -/
theorem solve_quadratic_order (sq : ℚ → ℚ) (a b c : ℚ)
    (hsq : SqOk sq (b * b - 4 * a * c)) (ha : 0 < a) :
    (∀ t0 t1, solve_quadratic sq a b c = some (t0, t1) → t0 ≤ t1) ∧
    (b * b < 4 * a * c → solve_quadratic sq a b c = none) := by
  constructor
  · intro t0 t1 hsol
    obtain ⟨hd, ht0, ht1⟩ := solve_quadratic_eq_some sq a b c t0 t1 hsol
    obtain ⟨hs2, hsnn⟩ := hsq hd
    rw [ht0, ht1]
    have hden : 0 < 1 / (2 * a) := by positivity
    have h1 : -b - sq (b * b - 4 * a * c) ≤ -b + sq (b * b - 4 * a * c) := by
      linarith
    exact mul_le_mul_of_nonneg_right h1 (le_of_lt hden)
  · intro hlt
    unfold solve_quadratic
    rw [if_pos (by linarith)]

theorem solve_quadratic_order_witness : (-1 : ℚ) ≤ 1 :=
  (solve_quadratic_order sqCE 1 0 (-1)
      (by norm_num [SqOk, sqCE]) (by norm_num)).1 (-1) 1
    (by norm_num [solve_quadratic, sqCE])

/-- C10: intersect_sphere never modifies the origin or direction of the
ray, and on a return of false it leaves the whole ray unchanged. -/
theorem intersect_sphere_frame (sq : ℚ → ℚ) (s : Sphere) (r : Ray) :
    (intersect_sphere sq s r).2.ox = r.ox ∧
    (intersect_sphere sq s r).2.oy = r.oy ∧
    (intersect_sphere sq s r).2.oz = r.oz ∧
    (intersect_sphere sq s r).2.dx = r.dx ∧
    (intersect_sphere sq s r).2.dy = r.dy ∧
    (intersect_sphere sq s r).2.dz = r.dz ∧
    ((intersect_sphere sq s r).1 = false → (intersect_sphere sq s r).2 = r) := by
  have hs := intersect_sphere_snd_shape sq s r
  exact ⟨by rw [hs], by rw [hs], by rw [hs], by rw [hs], by rw [hs], by rw [hs],
    intersect_sphere_false_eq sq s r⟩

theorem intersect_sphere_frame_witness :
    (intersect_sphere sq0 sphFar (mkRay 2048 2048 0 0)).2 = mkRay 2048 2048 0 0 :=
  (intersect_sphere_frame sq0 sphFar (mkRay 2048 2048 0 0)).2.2.2.2.2.2
    (by norm_num [intersect_sphere, solve_quadratic, aCoef, bCoef, cCoef,
      mkRay, sphFar, sq0, cx0, LEFT, BOTTOM, WIDTH, HEIGHT, NEAR, FAR])

/-- C8: every ray the resolver casts has direction (0, 0, 1), so the
quadratic coefficient a computed in intersect_sphere is 1 both for the
fresh ray and for the ray at any point of the scan, and the denominator
2a of den = 1/(2a) is never zero. -/
theorem pixel_ray_nondegenerate (sq : ℚ → ℚ) (spheres : List Sphere)
    (W H i j : ℕ) :
    aCoef (mkRay W H i j) = 1 ∧
    aCoef (scan sq spheres (mkRay W H i j)).2 = 1 ∧
    2 * aCoef (scan sq spheres (mkRay W H i j)).2 ≠ 0 := by
  have h1 : aCoef (mkRay W H i j) = 1 := by norm_num [aCoef, mkRay]
  have h2 : aCoef (scan sq spheres (mkRay W H i j)).2 = 1 := by
    unfold scan
    rw [scanFrom_frame sq spheres 0 (-1) (mkRay W H i j), aCoef_maxt]
    exact h1
  exact ⟨h1, h2, by rw [h2]; norm_num⟩


/-- C3 (amended): across the sphere scan of a pixel, each call of
intersect_sphere that returns true leaves ray.maxt less than or equal to
its value before the call, provided the ray origin lies strictly outside
the sphere (positive coefficient c) and the direction is non-degenerate
(positive coefficient a); when the origin is inside the sphere an accepted
hit stores the exit distance t1, which can exceed the previous maxt. -/
theorem maxt_nonincreasing_outside (sq : ℚ → ℚ) (s : Sphere) (r : Ray)
    (hsq : SqOk sq (disc s r)) (ha : 0 < aCoef r) (hc : 0 < cCoef s r)
    (hhit : (intersect_sphere sq s r).1 = true) :
    (intersect_sphere sq s r).2.maxt ≤ r.maxt :=
  (maxt_mono sq s r hsq ha hc hhit).2

theorem maxt_nonincreasing_outside_witness :
    (intersect_sphere sqCE sphA (mkRay 2048 2048 0 0)).2.maxt ≤
      (mkRay 2048 2048 0 0).maxt :=
  maxt_nonincreasing_outside sqCE sphA (mkRay 2048 2048 0 0)
    (by norm_num [SqOk, sqCE, disc, aCoef, bCoef, cCoef, mkRay, sphA, cx0,
      LEFT, BOTTOM, WIDTH, HEIGHT, NEAR, FAR])
    (by norm_num [aCoef, mkRay])
    (by norm_num [cCoef, mkRay, sphA, cx0, LEFT, BOTTOM, WIDTH, HEIGHT, NEAR, FAR])
    (by norm_num [intersect_sphere, solve_quadratic, aCoef, bCoef, cCoef,
      mkRay, sphA, sqCE, cx0, LEFT, BOTTOM, WIDTH, HEIGHT, NEAR, FAR])

/-- C3 as stated is false: in the scan of the scene [sphA, sphB] for pixel
(0, 0), the first call accepts sphA and sets maxt to 4, then the second
call accepts sphB (the ray origin is inside sphB, so the exit distance is
stored) and raises maxt from 4 to 30. -/
theorem maxt_can_increase_cex :
    (intersect_sphere sqCE sphA (mkRay 2048 2048 0 0)).1 = true ∧
    (intersect_sphere sqCE sphA (mkRay 2048 2048 0 0)).2.maxt = 4 ∧
    (intersect_sphere sqCE sphB
        (intersect_sphere sqCE sphA (mkRay 2048 2048 0 0)).2).1 = true ∧
    ¬((intersect_sphere sqCE sphB
          (intersect_sphere sqCE sphA (mkRay 2048 2048 0 0)).2).2.maxt ≤
        (intersect_sphere sqCE sphA (mkRay 2048 2048 0 0)).2.maxt) := by
  norm_num [intersect_sphere, solve_quadratic, aCoef, bCoef, cCoef, mkRay,
    sphA, sphB, sqCE, cx0, LEFT, BOTTOM, WIDTH, HEIGHT, NEAR, FAR]

/-- C1 (amended): the index tracked by the resolver is the last sphere
accepted in scan order, and provided the ray origin lies strictly outside
every sphere of the scene, the distance accepted with it (the final maxt)
is smallest among all accepted intersection distances — the tracked index
is a nearest-hit index.  Without the outside proviso the tracked index can
differ from the nearest-hit sphere. -/
theorem last_hit_nearest_outside (sq : ℚ → ℚ) (spheres : List Sphere)
    (W H i j : ℕ)
    (h : ∀ s ∈ spheres,
      SqOk sq (disc s (mkRay W H i j)) ∧ 0 < cCoef s (mkRay W H i j)) :
    (∀ p ∈ scanEv sq spheres 0 (mkRay W H i j),
      (scan sq spheres (mkRay W H i j)).2.maxt ≤ p.2) ∧
    (∀ p, (scanEv sq spheres 0 (mkRay W H i j)).getLast? = some p →
      (scan sq spheres (mkRay W H i j)).1 = (p.1 : Int) ∧
      (scan sq spheres (mkRay W H i j)).2.maxt = p.2) := by
  have ha : 0 < aCoef (mkRay W H i j) := by norm_num [aCoef, mkRay]
  obtain ⟨h1, h2, h3, h4⟩ :=
    scanFrom_events sq spheres 0 (-1) (mkRay W H i j) ha h
  exact ⟨h2, h4⟩

theorem last_hit_nearest_outside_witness :
    (scan sqCE [sphA] (mkRay 2048 2048 0 0)).2.maxt ≤ (4:ℚ) :=
  (last_hit_nearest_outside sqCE [sphA] 2048 2048 0 0
      (by
        intro s hs
        rw [List.mem_singleton] at hs
        subst hs
        constructor
        · norm_num [SqOk, sqCE, disc, aCoef, bCoef, cCoef, mkRay, sphA, cx0,
            LEFT, BOTTOM, WIDTH, HEIGHT, NEAR, FAR]
        · norm_num [cCoef, mkRay, sphA, cx0, LEFT, BOTTOM, WIDTH, HEIGHT,
            NEAR, FAR])).1
    ((0 : ℕ), (4 : ℚ))
    (by norm_num [scanEv, intersect_sphere, solve_quadratic, aCoef, bCoef,
      cCoef, mkRay, sphA, sqCE, cx0, LEFT, BOTTOM, WIDTH, HEIGHT, NEAR, FAR])

/-- C1 as stated is false: for pixel (0, 0) and the scene [sphA, sphB] the
tracked index is 1, while the accepted intersection distances are 4 for
sphere 0 and 30 for sphere 1, so the tracked sphere is not the sphere
whose accepted intersection distance is smallest. -/
theorem last_hit_not_nearest_cex :
    (scan sqCE [sphA, sphB] (mkRay 2048 2048 0 0)).1 = 1 ∧
    scanEv sqCE [sphA, sphB] 0 (mkRay 2048 2048 0 0) = [(0, 4), (1, 30)] ∧
    ¬((30:ℚ) ≤ 4) := by
  refine ⟨?_, ?_, by norm_num⟩
  · norm_num [scan, scanFrom, intersect_sphere, solve_quadratic, aCoef,
      bCoef, cCoef, mkRay, sphA, sphB, sqCE, cx0, LEFT, BOTTOM, WIDTH,
      HEIGHT, NEAR, FAR]
  · norm_num [scanEv, intersect_sphere, solve_quadratic, aCoef, bCoef,
      cCoef, mkRay, sphA, sphB, sqCE, cx0, LEFT, BOTTOM, WIDTH, HEIGHT,
      NEAR, FAR]


/-- C2: the resolver emits a sphere color only when the recorded hit index
is strictly greater than 0; when the recorded index is 0 or below (last
accepted sphere at index 0, or no accepted sphere) the background color
(0.1, 0.1, 0.1) is emitted; in particular any scene consisting of a single
sphere renders as background at every pixel. -/
theorem pixel_color_spec (sq : ℚ → ℚ) (spheres : List Sphere) (W H i j : ℕ) :
    (0 < (scan sq spheres (mkRay W H i j)).1 →
      pixel_color sq spheres W H i j =
        ((spheres.getD (scan sq spheres (mkRay W H i j)).1.toNat sphere0).r,
         (spheres.getD (scan sq spheres (mkRay W H i j)).1.toNat sphere0).g,
         (spheres.getD (scan sq spheres (mkRay W H i j)).1.toNat sphere0).b)) ∧
    ((scan sq spheres (mkRay W H i j)).1 ≤ 0 →
      pixel_color sq spheres W H i j = (1/10, 1/10, 1/10)) ∧
    (∀ s, pixel_color sq [s] W H i j = (1/10, 1/10, 1/10)) := by
  refine ⟨?_, fun h => pixel_color_bg sq spheres W H i j h, ?_⟩
  · intro hpos
    unfold pixel_color
    rw [if_pos hpos]
  · intro s
    apply pixel_color_bg
    by_cases hb : (intersect_sphere sq s (mkRay W H i j)).1 <;>
      simp [scan, scanFrom, hb]

theorem pixel_color_spec_witness :
    pixel_color sqCE [sphB] 2048 2048 0 0 = (1/10, 1/10, 1/10) ∧
    pixel_color sqCE [sphA, sphB] 2048 2048 0 0 = (1, 0, 0) := by
  constructor
  · exact (pixel_color_spec sqCE [sphB] 2048 2048 0 0).2.2 sphB
  · have hidx : (scan sqCE [sphA, sphB] (mkRay 2048 2048 0 0)).1 = 1 := by
      norm_num [scan, scanFrom, intersect_sphere, solve_quadratic, aCoef,
        bCoef, cCoef, mkRay, sphA, sphB, sqCE, cx0, LEFT, BOTTOM, WIDTH,
        HEIGHT, NEAR, FAR]
    have h := (pixel_color_spec sqCE [sphA, sphB] 2048 2048 0 0).1
      (by rw [hidx]; norm_num)
    rw [hidx] at h
    simpa [sphB] using h

/-- C6: every pixel whose scan records no hit index greater than 0 (in
particular any pixel whose ray misses all spheres, and every pixel of an
empty scene) receives exactly the color (0.1, 0.1, 0.1) at its row-major
offset in the output buffer. -/
theorem trace_background (sq : ℚ → ℚ) (spheres : List Sphere)
    (img : ℕ → ℚ) (i j : ℕ) (hi : i < kImageWidth) (hj : j < kImageHeight)
    (hidx : (scan sq spheres (mkRay kImageWidth kImageHeight i j)).1 ≤ 0) :
    trace sq spheres img ((j * kImageWidth + i) * 3) = 1/10 ∧
    trace sq spheres img ((j * kImageWidth + i) * 3 + 1) = 1/10 ∧
    trace sq spheres img ((j * kImageWidth + i) * 3 + 2) = 1/10 := by
  have hpc := pixel_color_bg sq spheres kImageWidth kImageHeight i j hidx
  unfold trace
  refine ⟨?_, ?_, ?_⟩
  · have h := @traceAux_cell sq spheres kImageWidth kImageHeight i j 0 img hi hj
      (by norm_num)
    rw [hpc] at h
    simpa [rgbc] using h
  · have h := @traceAux_cell sq spheres kImageWidth kImageHeight i j 1 img hi hj
      (by norm_num)
    rw [hpc] at h
    simpa [rgbc] using h
  · have h := @traceAux_cell sq spheres kImageWidth kImageHeight i j 2 img hi hj
      (by norm_num)
    rw [hpc] at h
    simpa [rgbc] using h

theorem trace_background_witness :
    trace sq0 [] img0 ((0 * kImageWidth + 0) * 3) = 1/10 ∧
    trace sq0 [] img0 ((0 * kImageWidth + 0) * 3 + 1) = 1/10 ∧
    trace sq0 [] img0 ((0 * kImageWidth + 0) * 3 + 2) = 1/10 :=
  trace_background sq0 [] img0 0 0
    (by norm_num [kImageWidth]) (by norm_num [kImageHeight])
    (by norm_num [scan, scanFrom])

/-- C5: from the same draw stream and the same count, the original
generator and the reworked constructor-driven generator produce identical
sphere sequences. -/
theorem generate_spheres_equiv (u : ℕ → ℚ) (n : ℕ) :
    generate_spheres u n = generate_spheres_rw u n := by
  unfold generate_spheres generate_spheres_rw
  have h : ∀ m p, genAux u m p = genrwAux u m p := by
    intro m
    induction m with
    | zero => intro p; rfl
    | succ m2 ih =>
      intro p
      simp only [genAux, genrwAux, sphere_ctor]
      rw [ih]
  exact h n 0

/-- C9: when every draw of the stream lies in [0, 1), every generated
sphere has non-negative radius and color components in [0, 1). -/
theorem generate_spheres_bounds (u : ℕ → ℚ) (n : ℕ)
    (h : ∀ k, 0 ≤ u k ∧ u k < 1) :
    ∀ s ∈ generate_spheres u n, 0 ≤ s.radius ∧
      (0 ≤ s.r ∧ s.r < 1) ∧ (0 ≤ s.g ∧ s.g < 1) ∧ (0 ≤ s.b ∧ s.b < 1) := by
  unfold generate_spheres
  have key : ∀ m p, ∀ s ∈ genAux u m p, 0 ≤ s.radius ∧
      (0 ≤ s.r ∧ s.r < 1) ∧ (0 ≤ s.g ∧ s.g < 1) ∧ (0 ≤ s.b ∧ s.b < 1) := by
    intro m
    induction m with
    | zero => intro p s hs; simp [genAux] at hs
    | succ m2 ih =>
      intro p s hs
      simp only [genAux] at hs
      rcases List.mem_cons.mp hs with h1 | h2
      · subst h1
        refine ⟨?_, ⟨(h (p+4)).1, (h (p+4)).2⟩, ⟨(h (p+5)).1, (h (p+5)).2⟩,
          ⟨(h (p+6)).1, (h (p+6)).2⟩⟩
        have h3 := (h (p+3)).1
        show 0 ≤ (u (p+3) + 1/10) * (3/2)
        nlinarith
      · exact ih (p + 7) s h2
  exact key n 0

theorem generate_spheres_bounds_witness :
    0 ≤ ((generate_spheres uHalf 1).getD 0 sphere0).radius ∧
    (0 ≤ ((generate_spheres uHalf 1).getD 0 sphere0).r ∧
      ((generate_spheres uHalf 1).getD 0 sphere0).r < 1) ∧
    (0 ≤ ((generate_spheres uHalf 1).getD 0 sphere0).g ∧
      ((generate_spheres uHalf 1).getD 0 sphere0).g < 1) ∧
    (0 ≤ ((generate_spheres uHalf 1).getD 0 sphere0).b ∧
      ((generate_spheres uHalf 1).getD 0 sphere0).b < 1) :=
  generate_spheres_bounds uHalf 1 (fun k => by norm_num [uHalf])
    ((generate_spheres uHalf 1).getD 0 sphere0)
    (by norm_num [generate_spheres, genAux])

end RT
